import Mathlib

/-!
Verification of the Agent Planning Engine (goal decomposition, execution
planning, plan adaptation and performance reflection).

The definitions below are a shallow embedding of the TypeScript class
`AgentPlanningEngine`: JavaScript numbers are modelled as rationals (`ℚ`),
`Map`s as association lists with insert-or-overwrite semantics, thrown
exceptions as `Except`, and the `uuidv4()` generator as an explicit supply
of fresh identifiers.  A JavaScript `NaN` produced by `0 / 0` is modelled
as `Option.none` (all comparisons against it are false).
-/

namespace Planning

inductive TaskType where
  | atomic
  | composite
deriving DecidableEq

inductive Priority where
  | low
  | medium
  | high
  | critical
deriving DecidableEq

inductive FeedbackStatus where
  | completed
  | failed
  | blocked
  | in_progress
deriving DecidableEq

/-- `Task` interface: only machine-relevant fields keep their source types;
numbers are rationals. -/
structure Task where
  id : String
  name : String
  description : String
  type : TaskType
  estimatedDuration : ℚ
  requiredCapabilities : List String
  dependencies : List String
  priority : Priority
  successCriteria : List String
deriving DecidableEq

structure SubGoal where
  id : String
  description : String
  tasks : List Task
  dependencies : List String
  estimatedDuration : ℚ
  successCriteria : List String
deriving DecidableEq

structure TaskDependency where
  taskId : String
  dependsOn : List String
  dependencyType : String
deriving DecidableEq

structure TaskPlan where
  goalId : String
  mainGoal : String
  subGoals : List SubGoal
  dependencies : List TaskDependency
  estimatedDuration : ℚ
  requiredCapabilities : List String
  successCriteria : List String
  createdAt : Nat
  version : Nat
deriving DecidableEq

structure PlanningConstraints where
  maxDuration : Option ℚ
  maxCost : Option ℚ
  requiredCapabilities : Option (List String)
  excludedCapabilities : Option (List String)
  parallelismLevel : Option Nat
  priorityThreshold : Option Priority
deriving DecidableEq

/-- The empty constraints object `{}` (every optional field absent). -/
def noConstraints : PlanningConstraints :=
  ⟨none, none, none, none, none, none⟩

structure ExecutionCheckpoint where
  id : String
  taskId : String
  condition : String
  action : String
deriving DecidableEq

/-- A `Record<string, any>` value appearing in `FallbackStrategy.parameters`. -/
inductive JVal where
  | str (s : String)
  | num (q : ℚ)
deriving DecidableEq

structure FallbackStrategy where
  triggerId : String
  condition : String
  action : String
  parameters : List (String × JVal)
deriving DecidableEq

/-- The per-task record stored in `resourceAllocation`. -/
structure ResourceInfo where
  requiredCapabilities : List String
  estimatedDuration : ℚ
  priority : Priority
  resourceType : String
deriving DecidableEq

structure ExecutionPlan where
  id : String
  taskPlan : TaskPlan
  executionOrder : List String
  parallelGroups : List (List String)
  resourceAllocation : List (String × ResourceInfo)
  checkpoints : List ExecutionCheckpoint
  fallbackStrategies : List FallbackStrategy
  estimatedCost : ℚ
  estimatedDuration : ℚ
deriving DecidableEq

structure ExecutionFeedback where
  taskId : String
  status : FeedbackStatus
  actualDuration : ℚ
  actualCost : ℚ
  quality : ℚ
  issues : List String
  suggestions : List String
deriving DecidableEq

structure ExecutionResults where
  planId : String
  overallStatus : String
  completedTasks : List String
  failedTasks : List String
  totalDuration : ℚ
  totalCost : ℚ
  qualityScore : ℚ
  lessons : List String
deriving DecidableEq

structure PerformanceInsights where
  planId : String
  strengths : List String
  weaknesses : List String
  recommendations : List String
  optimizationOpportunities : List String
  confidenceScore : ℚ
deriving DecidableEq

/-! ### Dependency graph (`buildDependencyGraph`) -/

/-- A JavaScript `Map<string, string[]>` as an association list whose keys
appear in insertion order. -/
abbrev DepGraph := List (String × List String)

/-- `Map.set`: overwrite the value when the key is present, otherwise append. -/
def mapSet (m : DepGraph) (k : String) (v : List String) : DepGraph :=
  if m.any (fun p => p.1 = k) then
    m.map (fun p => if p.1 = k then (k, v) else p)
  else
    m ++ [(k, v)]

/-- `buildDependencyGraph`: `graph.set(task.id, task.dependencies ?? [])` for
each task in order. -/
def buildDependencyGraph (tasks : List Task) : DepGraph :=
  tasks.foldl (fun m t => mapSet m t.id t.dependencies) []

/-- `Map.get` with the `?? []` default used throughout the scheduler. -/
def depsOf (g : DepGraph) (t : String) : List String :=
  match g.find? (fun p => p.1 = t) with
  | some p => p.2
  | none => []

/-- `Map.keys()` in insertion order. -/
def graphKeys (g : DepGraph) : List String := g.map Prod.fst

/-- Every id mentioned by the graph: keys plus every dependency id. -/
def allIds (g : DepGraph) : List String :=
  graphKeys g ++ (g.map Prod.snd).flatten

/-- The dependency edge relation: `x` depends (directly) on `y`. -/
def edge (g : DepGraph) (x y : String) : Prop := y ∈ depsOf g x

/-! ### Topological scheduler (`calculateExecutionOrder`) -/

/-- The mutable state of the scheduler: `order` (output), `visited`
(fully processed), `visiting` (the DFS stack, most recent first). -/
structure SchedState where
  order : List String
  visited : List String
  visiting : List String
deriving DecidableEq

/-- The error message thrown on cycle detection. -/
def circularMsg (t : String) : String :=
  "Circular dependency detected involving task: " ++ t

/-- Sequentially apply a visitor to a list of task ids, threading the state
and propagating the first thrown error (a `for` loop over `visit` calls). -/
def runVisits (f : String → SchedState → Except String SchedState) :
    List String → SchedState → Except String SchedState
  | [], s => .ok s
  | t :: ts, s =>
    match f t s with
    | .error e => .error e
    | .ok s2 => runVisits f ts s2

/-- The recursive `visit` closure of `calculateExecutionOrder`.  The budget
argument bounds only the recursion depth; the top-level call supplies a
budget provably larger than any DFS stack can grow, so the
`"fuel exhausted"` branch is unreachable there (see `visitFuel_spec`). -/
def visitFuel (g : DepGraph) : Nat → String → SchedState → Except String SchedState
  | 0, _, _ => .error "fuel exhausted"
  | fuel + 1, t, s =>
    if t ∈ s.visiting then
      .error (circularMsg t)
    else if t ∈ s.visited then
      .ok s
    else
      match runVisits (visitFuel g fuel) (depsOf g t) ⟨s.order, s.visited, t :: s.visiting⟩ with
      | .error e => .error e
      | .ok s2 => .ok ⟨s2.order ++ [t], t :: s2.visited, s2.visiting.erase t⟩

/-- Depth budget passed to the DFS: strictly more than the number of ids the
graph can ever place on the `visiting` stack. -/
def schedFuel (g : DepGraph) : Nat :=
  g.length + (g.map (fun p => p.2.length)).sum + 1

set_option linter.unusedVariables false in
/-- `calculateExecutionOrder`: visit every key of the graph in insertion
order.  The `constraints` argument is accepted and never used, exactly as in
the source. -/
def calculateExecutionOrder (g : DepGraph) (constraints : PlanningConstraints) :
    Except String (List String) :=
  match runVisits (visitFuel g (schedFuel g)) (graphKeys g) ⟨[], [], []⟩ with
  | .ok s => .ok s.order
  | .error e => .error e

example : calculateExecutionOrder [("A", []), ("B", ["A"]), ("C", [])] noConstraints
    = .ok ["A", "B", "C"] := by rfl

example : calculateExecutionOrder [("A", ["B"]), ("B", ["A"])] noConstraints
    = .error (circularMsg "A") := by rfl

/-! ### Parallel group identifier (`identifyParallelGroups`) -/

/-- `canRunInParallel`: neither task directly depends on the other. -/
def canRunInParallel (taskId1 taskId2 : String) (g : DepGraph) : Bool :=
  let deps1 := depsOf g taskId1
  let deps2 := depsOf g taskId2
  !(deps1.contains taskId2) && !(deps2.contains taskId1)

/-- The inner scan of `identifyParallelGroups`: walk the whole task list,
skipping already-processed ids, and collect every task that
`canRunInParallel` with the id that started the group.  Returns the
collected ids (in scan order) together with the updated processed set. -/
def addParallel (g : DepGraph) (startId : String) :
    List Task → List String → List String × List String
  | [], processed => ([], processed)
  | t :: rest, processed =>
    if t.id ∈ processed then
      addParallel g startId rest processed
    else if canRunInParallel startId t.id g then
      let r := addParallel g startId rest (processed ++ [t.id])
      (t.id :: r.1, r.2)
    else
      addParallel g startId rest processed

/-- The outer loop of `identifyParallelGroups`, iterating the task list in
plan order with the running processed set; `allTasks` is the full task list
that the inner scan revisits each time. -/
def identifyParallelGroupsAux (g : DepGraph) (allTasks : List Task) :
    List Task → List String → List (List String)
  | [], _ => []
  | t :: rest, processed =>
    if t.id ∈ processed then
      identifyParallelGroupsAux g allTasks rest processed
    else
      let r := addParallel g t.id allTasks (processed ++ [t.id])
      let group := t.id :: r.1
      let groups := identifyParallelGroupsAux g allTasks rest r.2
      if group.length > 1 then group :: groups else groups

/-- `identifyParallelGroups`: greedy grouping; groups of size 1 are
discarded. -/
def identifyParallelGroups (tasks : List Task) (g : DepGraph) : List (List String) :=
  identifyParallelGroupsAux g tasks tasks []

/-! ### Resources, checkpoints, fallbacks, estimates -/

set_option linter.unusedVariables false in
/-- `allocateResources`: per-task record; the `constraints` argument is
accepted and never used, exactly as in the source. -/
def allocateResources (tasks : List Task) (constraints : PlanningConstraints) :
    List (String × ResourceInfo) :=
  tasks.map (fun t =>
    (t.id,
      { requiredCapabilities := t.requiredCapabilities
        estimatedDuration := t.estimatedDuration
        priority := t.priority
        resourceType := if t.type = TaskType.atomic then "single_agent" else "multi_agent" }))

/-- `createCheckpoints`: one `pause` checkpoint per critical task and, when
the order has more than two steps, a `progress_review` checkpoint at the
midpoint task.  `supply` provides the `uuidv4()` values, starting at index
`base`. -/
def createCheckpoints (supply : Nat → String) (base : Nat) (tasks : List Task)
    (executionOrder : List String) : List ExecutionCheckpoint :=
  let crit := tasks.filter (fun t => t.priority = Priority.critical)
  let cps := (crit.zip (List.range crit.length)).map (fun p =>
    { id := supply (base + p.2), taskId := p.1.id
      condition := "task_completion", action := "pause" : ExecutionCheckpoint })
  let midpoint := executionOrder.length / 2
  if executionOrder.length > 2 then
    cps ++ [{ id := supply (base + crit.length), taskId := executionOrder.getD midpoint ""
              condition := "progress_review", action := "continue" }]
  else
    cps

/-- `defineFallbackStrategies`: `human_intervention` for critical tasks,
bounded `retry` otherwise. -/
def defineFallbackStrategies (tasks : List Task) : List FallbackStrategy :=
  tasks.map (fun t =>
    if t.priority = Priority.critical then
      { triggerId := t.id, condition := "task_failure", action := "human_intervention"
        parameters := [("escalationLevel", JVal.str "immediate")] }
    else
      { triggerId := t.id, condition := "task_failure", action := "retry"
        parameters := [("maxRetries", JVal.num 3), ("backoffMs", JVal.num 5000)] })

/-- `Math.max(...list)` for the nonempty lists it is applied to (the
`[]` case is never reached by `calculateEstimates`: a parallel group always
names at least one task of the plan). -/
def listMax : List ℚ → ℚ
  | [] => 0
  | x :: l => l.foldl max x

/-- `calculateEstimates`: duration is the sum over ungrouped tasks plus the
maximum duration of each parallel group; cost is a flat `0.05` per task. -/
def calculateEstimates (tasks : List Task) (parallelGroups : List (List String)) :
    ℚ × ℚ :=
  let sequentialTasks := tasks.filter (fun t =>
    !(parallelGroups.any (fun group => group.contains t.id)))
  let seqDuration := (sequentialTasks.map (fun t => t.estimatedDuration)).sum
  let parDuration := (parallelGroups.map (fun group =>
    listMax (((tasks.filter (fun t => group.contains t.id)).map
      (fun t => t.estimatedDuration))))).sum
  (seqDuration + parDuration, (tasks.length : ℚ) * (5 / 100))

/-- `[...new Set(xs)]`: deduplication keeping the first occurrence, in
insertion order. -/
def dedupFirst : List String → List String
  | [] => []
  | x :: l => x :: dedupFirst (l.filter (fun y => y ≠ x))
termination_by l => l.length
decreasing_by
  simp only [List.length_cons]
  exact Nat.lt_succ_of_le (List.length_filter_le _ _)

/-- `createExecutionPlan`: build the graph, schedule, group, allocate,
checkpoint, define fallbacks, and estimate.  `supply` models `uuidv4()`
(index 0: plan id, index 1: goal id, indices from 2: checkpoint ids) and
`now` models `new Date()`. -/
def createExecutionPlan (supply : Nat → String) (now : Nat) (tasks : List Task)
    (constraints : PlanningConstraints) : Except String ExecutionPlan :=
  let dependencyGraph := buildDependencyGraph tasks
  match calculateExecutionOrder dependencyGraph constraints with
  | .error e => .error e
  | .ok executionOrder =>
    let parallelGroups := identifyParallelGroups tasks dependencyGraph
    let resourceAllocation := allocateResources tasks constraints
    let checkpoints := createCheckpoints supply 2 tasks executionOrder
    let fallbackStrategies := defineFallbackStrategies tasks
    let estimates := calculateEstimates tasks parallelGroups
    .ok
      { id := supply 0
        taskPlan :=
          { goalId := supply 1
            mainGoal := "Generated from tasks"
            subGoals := []
            dependencies := []
            estimatedDuration := estimates.1
            requiredCapabilities := dedupFirst (tasks.map Task.requiredCapabilities).flatten
            successCriteria := dedupFirst (tasks.map Task.successCriteria).flatten
            createdAt := now
            version := 1 }
        executionOrder := executionOrder
        parallelGroups := parallelGroups
        resourceAllocation := resourceAllocation
        checkpoints := checkpoints
        fallbackStrategies := fallbackStrategies
        estimatedCost := estimates.2
        estimatedDuration := estimates.1 }

/-! ### Plan adaptation (`adaptPlan`) -/

/-- `Array.prototype.indexOf`: `-1` when the element is absent. -/
def jsIndexOf (l : List String) (x : String) : Int :=
  if x ∈ l then (l.indexOf x : Int) else -1

structure FeedbackImpact where
  severity : String
  affectedTasks : List String
  timelineImpact : ℚ
  costImpact : ℚ
deriving DecidableEq

/-- `findAffectedTasks`: tasks positioned after the failed task. -/
def findAffectedTasks (plan : ExecutionPlan) (failedTaskId : String) : List String :=
  plan.executionOrder.filter (fun taskId =>
    jsIndexOf plan.executionOrder failedTaskId < jsIndexOf plan.executionOrder taskId)

/-- `analyzeFeedbackImpact`. -/
def analyzeFeedbackImpact (plan : ExecutionPlan) (feedback : ExecutionFeedback) :
    FeedbackImpact :=
  { severity := if feedback.status = FeedbackStatus.failed then "high" else "medium"
    affectedTasks := findAffectedTasks plan feedback.taskId
    timelineImpact :=
      feedback.actualDuration - plan.estimatedDuration / (plan.executionOrder.length : ℚ)
    costImpact :=
      feedback.actualCost - plan.estimatedCost / (plan.executionOrder.length : ℚ) }

inductive StrategyType where
  | replan
  | reorder
  | adjust_estimates
deriving DecidableEq

structure AdaptationStrategy where
  type : StrategyType
  scope : String
deriving DecidableEq

/-- `determineAdaptationStrategy`. -/
def determineAdaptationStrategy (impact : FeedbackImpact)
    (feedback : ExecutionFeedback) : AdaptationStrategy :=
  if feedback.status = FeedbackStatus.failed ∧ impact.severity = "high" then
    ⟨StrategyType.replan, "full"⟩
  else if feedback.status = FeedbackStatus.blocked then
    ⟨StrategyType.reorder, "partial"⟩
  else
    ⟨StrategyType.adjust_estimates, "minimal"⟩

/-- `applyAdaptations`: `replan` filters the failed task out of the order;
`reorder` moves the blocked task (first occurrence, via `indexOf`/`splice`)
to the end; `adjust_estimates` rescales the duration estimate. -/
def applyAdaptations (plan : ExecutionPlan) (strategy : AdaptationStrategy)
    (feedback : ExecutionFeedback) : ExecutionPlan :=
  match strategy.type with
  | StrategyType.replan =>
    { plan with executionOrder := plan.executionOrder.filter (fun id => id ≠ feedback.taskId) }
  | StrategyType.reorder =>
    if feedback.taskId ∈ plan.executionOrder then
      { plan with executionOrder :=
          (plan.executionOrder.erase feedback.taskId) ++ [feedback.taskId] }
    else
      plan
  | StrategyType.adjust_estimates =>
    { plan with estimatedDuration :=
        plan.estimatedDuration *
          (feedback.actualDuration /
            (plan.estimatedDuration / (plan.executionOrder.length : ℚ))) }

/-- `recalculateEstimates`: rescale duration and cost by
`actualDuration / averagePerTaskEstimate`, computed on the (already
adapted) plan. -/
def recalculateEstimates (plan : ExecutionPlan) (feedback : ExecutionFeedback) :
    ℚ × ℚ :=
  let adjustmentFactor :=
    feedback.actualDuration /
      (plan.estimatedDuration / (plan.executionOrder.length : ℚ))
  (plan.estimatedDuration * adjustmentFactor, plan.estimatedCost * adjustmentFactor)

/-- `adaptPlan`: apply the strategy, recompute the estimates on the adapted
plan, and stamp a fresh id (`freshId` models the new `uuidv4()`). -/
def adaptPlan (freshId : String) (currentPlan : ExecutionPlan)
    (feedback : ExecutionFeedback) : ExecutionPlan :=
  let impact := analyzeFeedbackImpact currentPlan feedback
  let adaptationStrategy := determineAdaptationStrategy impact feedback
  let adaptedPlan := applyAdaptations currentPlan adaptationStrategy feedback
  let newEstimates := recalculateEstimates adaptedPlan feedback
  { adaptedPlan with
      estimatedCost := newEstimates.2
      estimatedDuration := newEstimates.1
      id := freshId }

/-! ### Plan validator (`validateDecomposition`)

The raw payload is modelled after JavaScript truthiness on the fields the
validator reads: a string field is falsy exactly when it is `""` (absent or
empty), a list-valued field is `Option`al because an *empty* array is still
truthy, and `estimatedDuration` is `Option`al (absent or non-number) with
`0` falsy. -/

structure RawTask where
  id : String
  name : String
  type : String
deriving DecidableEq

structure RawSubGoal where
  id : String
  description : String
  tasks : Option (List RawTask)
deriving DecidableEq

structure RawDecomposition where
  subGoals : Option (List RawSubGoal)
  estimatedDuration : Option ℚ
deriving DecidableEq

/-- The distinct `Invalid decomposition`/`Invalid sub-goal`/`Invalid task`
errors thrown by `validateDecomposition`, by first violation. -/
inductive ValidationError where
  | missingSubGoals
  | missingDuration
  | invalidSubGoal (sg : RawSubGoal)
  | invalidTask (t : RawTask)
deriving DecidableEq

/-- The task loop of `validateDecomposition`. -/
def validateTasks : List RawTask → Except ValidationError Unit
  | [] => .ok ()
  | t :: rest =>
    if t.id = "" ∨ t.name = "" ∨ t.type = "" then
      .error (ValidationError.invalidTask t)
    else
      validateTasks rest

/-- The sub-goal loop of `validateDecomposition`. -/
def validateSubGoals : List RawSubGoal → Except ValidationError Unit
  | [] => .ok ()
  | sg :: rest =>
    if sg.id = "" ∨ sg.description = "" ∨ sg.tasks = none then
      .error (ValidationError.invalidSubGoal sg)
    else
      match validateTasks (sg.tasks.getD []) with
      | .error e => .error e
      | .ok _ => validateSubGoals rest

/-- `validateDecomposition`: the checks of the source in source order.
`!parsed.subGoals || !Array.isArray(parsed.subGoals)` rejects only an
absent/non-array field (an empty array is truthy), and
`!parsed.estimatedDuration || typeof parsed.estimatedDuration !== 'number'`
rejects only an absent/non-number/zero value. -/
def validateDecomposition (parsed : RawDecomposition) :
    Except ValidationError RawDecomposition :=
  match parsed.subGoals with
  | none => .error ValidationError.missingSubGoals
  | some sgs =>
    match parsed.estimatedDuration with
    | none => .error ValidationError.missingDuration
    | some d =>
      if d = 0 then
        .error ValidationError.missingDuration
      else
        match validateSubGoals sgs with
        | .error e => .error e
        | .ok _ => .ok parsed

/-! ### Performance reflection (`reflectOnPerformance`) -/

structure PerformanceAnalysis where
  strengths : List String
  weaknesses : List String
  optimizations : List String
deriving DecidableEq

/-- `completedTasks.length / (completedTasks.length + failedTasks.length)`:
`none` models the JavaScript `NaN` produced when both lists are empty. -/
def successRateJS (results : ExecutionResults) : Option ℚ :=
  let c := results.completedTasks.length
  let f := results.failedTasks.length
  if c + f = 0 then none else some ((c : ℚ) / ((c : ℚ) + (f : ℚ)))

/-- `NaN > q` is false. -/
def optGt : Option ℚ → ℚ → Bool
  | none, _ => false
  | some r, q => r > q

/-- `NaN < q` is false. -/
def optLt : Option ℚ → ℚ → Bool
  | none, _ => false
  | some r, q => r < q

/-- `analyzePerformance`. -/
def analyzePerformance (results : ExecutionResults) : PerformanceAnalysis :=
  let successRate := successRateJS results
  { strengths :=
      if optGt successRate (8 / 10) then ["High success rate", "Good task completion"] else []
    weaknesses :=
      if optLt successRate (6 / 10) then ["Low success rate", "Task execution issues"] else []
    optimizations :=
      if results.qualityScore < 7 / 10 then
        ["Improve task quality", "Better resource allocation"]
      else [] }

/-- `identifyPerformancePatterns`. -/
def identifyPerformancePatterns (results : ExecutionResults) : List String :=
  (if results.totalDuration > (results.completedTasks.length : ℚ) * 60 then
    ["Tasks taking longer than expected"] else []) ++
  (if results.failedTasks.length > 0 then ["Task failure pattern detected"] else [])

/-- `generateRecommendations`. -/
def generateRecommendations (analysis : PerformanceAnalysis) (patterns : List String) :
    List String :=
  (if "Low success rate" ∈ analysis.weaknesses then
    ["Review task complexity and break down further"] else []) ++
  (if "Tasks taking longer than expected" ∈ patterns then
    ["Adjust duration estimates and add buffer time"] else [])

/-- `calculateConfidenceScore`. -/
def calculateConfidenceScore (analysis : PerformanceAnalysis) (patterns : List String) : ℚ :=
  let score : ℚ := 8 / 10
  let score := if analysis.strengths.length > analysis.weaknesses.length then
    score + 1 / 10 else score - 1 / 10
  let score := if patterns.length > 2 then score - 2 / 10 else score
  max (1 / 10) (min 1 score)

/-- `reflectOnPerformance`. -/
def reflectOnPerformance (results : ExecutionResults) : PerformanceInsights :=
  let performanceAnalysis := analyzePerformance results
  let patterns := identifyPerformancePatterns results
  let recommendations := generateRecommendations performanceAnalysis patterns
  let confidenceScore := calculateConfidenceScore performanceAnalysis patterns
  { planId := results.planId
    strengths := performanceAnalysis.strengths
    weaknesses := performanceAnalysis.weaknesses
    recommendations := recommendations
    optimizationOpportunities := performanceAnalysis.optimizations
    confidenceScore := confidenceScore }

/-! ## Theorems -/

/-! ### C10: the constraints argument has no effect -/

/-- C10: for every task list and every two `PlanningConstraints` values,
`createExecutionPlan` produces identical results (same execution order,
parallel groups, resource allocation, checkpoints, fallback strategies and
estimates) given the same id supply and clock: the constraints argument has
no effect on any output. -/
theorem constraints_have_no_effect (supply : Nat → String) (now : Nat)
    (tasks : List Task) (c1 c2 : PlanningConstraints) :
    createExecutionPlan supply now tasks c1 = createExecutionPlan supply now tasks c2 := by
  rfl

/-! ### C5: the worked A/B/C example -/

/-- Task constructor for the worked example and the witnesses: atomic,
medium priority, no capabilities or criteria. -/
def mkTask (id : String) (dur : ℚ) (deps : List String) : Task :=
  ⟨id, id, "", TaskType.atomic, dur, [], deps, Priority.medium, []⟩

def taskA5 : Task := mkTask "A" 10 []

def taskB5 : Task := mkTask "B" 20 ["A"]

def taskC5 : Task := mkTask "C" 5 []

/-- C5: on tasks `A(10, [])`, `B(20, [A])`, `C(5, [])`, `createExecutionPlan`
succeeds with execution order `A, B, C` (so `A` is placed before `B`),
groups `A` and `C` in a parallel group, estimates total duration
`max(10,5) + 20 = 30` (not `10+20+5 = 35`), and estimates cost `0.05` per
task, i.e. `3 × 0.05 = 0.15`. -/
theorem example_plan_estimates :
    (createExecutionPlan (fun _ => "u") 0 [taskA5, taskB5, taskC5] noConstraints).map
        ExecutionPlan.executionOrder = Except.ok ["A", "B", "C"]
      ∧ (createExecutionPlan (fun _ => "u") 0 [taskA5, taskB5, taskC5] noConstraints).map
        ExecutionPlan.parallelGroups = Except.ok [["A", "C"]]
      ∧ (createExecutionPlan (fun _ => "u") 0 [taskA5, taskB5, taskC5] noConstraints).map
        ExecutionPlan.estimatedDuration = Except.ok 30
      ∧ (30 : ℚ) = max 10 5 + 20
      ∧ (30 : ℚ) ≠ 10 + 20 + 5
      ∧ (createExecutionPlan (fun _ => "u") 0 [taskA5, taskB5, taskC5] noConstraints).map
        ExecutionPlan.estimatedCost = Except.ok (3 * (5 / 100)) := by
  have hest : calculateEstimates [taskA5, taskB5, taskC5] [["A", "C"]]
      = (30, 3 * (5 / 100)) := by
    have hseq : [taskA5, taskB5, taskC5].filter (fun t =>
        !([["A", "C"]].any (fun group => group.contains t.id))) = [taskB5] := rfl
    have hpar : [taskA5, taskB5, taskC5].filter (fun t =>
        (["A", "C"] : List String).contains t.id) = [taskA5, taskC5] := rfl
    unfold calculateEstimates
    rw [hseq]
    simp only [List.map_cons, List.map_nil, List.any_cons, List.any_nil, hpar]
    have hmax : listMax [taskA5.estimatedDuration, taskC5.estimatedDuration] = 10 := by
      simp [listMax, taskA5, taskC5, mkTask, max_def]
      norm_num
    rw [hmax]
    norm_num [taskB5, mkTask]
  have hgroups : identifyParallelGroups [taskA5, taskB5, taskC5]
      (buildDependencyGraph [taskA5, taskB5, taskC5]) = [["A", "C"]] := rfl
  have horder : calculateExecutionOrder (buildDependencyGraph [taskA5, taskB5, taskC5])
      noConstraints = Except.ok ["A", "B", "C"] := rfl
  refine ⟨?_, ?_, ?_, by norm_num, by norm_num, ?_⟩ <;>
    · simp only [createExecutionPlan, horder, hgroups, hest]
      rfl

/-! ### C6: adapting after a failure removes the failed task -/

/-- C6: feedback with status `failed` for a task in the plan yields a plan
whose `executionOrder` is the old one with every occurrence of the failed
task removed (other tasks in relative order), carrying the freshly generated
id, which differs from the old id whenever the generator is fresh. -/
theorem adaptPlan_failed_removes_task (plan : ExecutionPlan)
    (fb : ExecutionFeedback) (freshId : String)
    (hst : fb.status = FeedbackStatus.failed)
    (_hmem : fb.taskId ∈ plan.executionOrder)
    (hfresh : freshId ≠ plan.id) :
    (adaptPlan freshId plan fb).executionOrder
        = plan.executionOrder.filter (fun id => id ≠ fb.taskId)
      ∧ (adaptPlan freshId plan fb).id ≠ plan.id := by
  unfold adaptPlan determineAdaptationStrategy analyzeFeedbackImpact
  simp [hst, applyAdaptations]
  exact hfresh

/-- Witness for C6 at a concrete two-task plan. -/
def planW : ExecutionPlan :=
  { id := "p0"
    taskPlan := ⟨"g", "m", [], [], 10, [], [], 0, 1⟩
    executionOrder := ["X", "Y"]
    parallelGroups := []
    resourceAllocation := []
    checkpoints := []
    fallbackStrategies := []
    estimatedCost := 1
    estimatedDuration := 10 }

def fbFailedW : ExecutionFeedback :=
  ⟨"X", FeedbackStatus.failed, 6, 0, 1, [], []⟩

theorem adaptPlan_failed_removes_task_witness :
    fbFailedW.status = FeedbackStatus.failed
      ∧ fbFailedW.taskId ∈ planW.executionOrder
      ∧ "p1" ≠ planW.id
      ∧ (adaptPlan "p1" planW fbFailedW).executionOrder
          = planW.executionOrder.filter (fun id => id ≠ fbFailedW.taskId)
      ∧ (adaptPlan "p1" planW fbFailedW).id ≠ planW.id := by
  have h := adaptPlan_failed_removes_task planW fbFailedW "p1"
    (by decide) (by decide) (by decide)
  exact ⟨by decide, by decide, by decide, h.1, h.2⟩

/-! ### C7: estimate rescaling on adaptation -/

/-- C7 counterexample: for the two-task plan `["X","Y"]` with duration 10 and
cost 1, and `failed` feedback on `X` with actual duration 6, the claim
predicts `10 × (6 / (10 / 2)) = 12` and `1 × (6 / (10 / 2)) = 1.2`, but the
adapted plan carries duration 6 and cost 0.6: the adjustment factor is
computed on the already-adapted plan (whose order has one task), not on the
original. -/
theorem recalc_factor_counterexample :
    (adaptPlan "p1" planW fbFailedW).estimatedDuration
        ≠ planW.estimatedDuration *
          (fbFailedW.actualDuration /
            (planW.estimatedDuration / (planW.executionOrder.length : ℚ)))
      ∧ (adaptPlan "p1" planW fbFailedW).estimatedCost
        ≠ planW.estimatedCost *
          (fbFailedW.actualDuration /
            (planW.estimatedDuration / (planW.executionOrder.length : ℚ))) := by
  have hdur : (adaptPlan "p1" planW fbFailedW).estimatedDuration
      = 10 * ((6 : ℚ) / (10 / 1)) := by
    simp [adaptPlan, analyzeFeedbackImpact, determineAdaptationStrategy,
      applyAdaptations, recalculateEstimates, planW, fbFailedW]
  have hcost : (adaptPlan "p1" planW fbFailedW).estimatedCost
      = 1 * ((6 : ℚ) / (10 / 1)) := by
    simp [adaptPlan, analyzeFeedbackImpact, determineAdaptationStrategy,
      applyAdaptations, recalculateEstimates, planW, fbFailedW]
  constructor
  · rw [hdur]
    show (10 : ℚ) * (6 / (10 / 1)) ≠ 10 * (6 / (10 / (2 : ℚ)))
    norm_num
  · rw [hcost]
    show (1 : ℚ) * (6 / (10 / 1)) ≠ 1 * (6 / (10 / (2 : ℚ)))
    norm_num

/-- The algebra of the rescaling factor `a / (D / m)` used by
`recalculateEstimates` (the `m = 0` case gives `0 = 0` under rational
division-by-zero conventions). -/
lemma rescale_arith (D C a m : ℚ) (hD : D ≠ 0) :
    D * (a / (D / m)) = a * m ∧ C * (a / (D / m)) = C * (a * m) / D := by
  by_cases hm : m = 0
  · simp [hm]
  · constructor
    · field_simp
    · field_simp

/-- C7 amended: the adjustment factor is
`actualDuration / (estimatedDuration / |executionOrder|)` of the *adapted*
plan.  For `blocked` feedback this coincides with the claim's formula (the
reorder keeps the length and estimates); for `failed` feedback the average
divides by the length of the order with the failed task removed; for
`completed`/`in_progress` feedback the duration matches the claim's formula
but the cost is returned unchanged. -/
theorem adaptPlan_estimate_update (plan : ExecutionPlan) (fb : ExecutionFeedback)
    (freshId : String)
    (hD : plan.estimatedDuration ≠ 0)
    (hn : plan.executionOrder ≠ []) :
    (fb.status = FeedbackStatus.failed →
      (adaptPlan freshId plan fb).estimatedDuration
          = fb.actualDuration *
            ((plan.executionOrder.filter (fun id => id ≠ fb.taskId)).length : ℚ)
        ∧ (adaptPlan freshId plan fb).estimatedCost
          = plan.estimatedCost *
            (fb.actualDuration *
              ((plan.executionOrder.filter (fun id => id ≠ fb.taskId)).length : ℚ)) /
            plan.estimatedDuration)
    ∧ (fb.status = FeedbackStatus.blocked →
      (adaptPlan freshId plan fb).estimatedDuration
          = fb.actualDuration * (plan.executionOrder.length : ℚ)
        ∧ (adaptPlan freshId plan fb).estimatedCost
          = plan.estimatedCost *
            (fb.actualDuration * (plan.executionOrder.length : ℚ)) /
            plan.estimatedDuration)
    ∧ ((fb.status = FeedbackStatus.completed ∨ fb.status = FeedbackStatus.in_progress) →
      fb.actualDuration ≠ 0 →
      (adaptPlan freshId plan fb).estimatedDuration
          = fb.actualDuration * (plan.executionOrder.length : ℚ)
        ∧ (adaptPlan freshId plan fb).estimatedCost = plan.estimatedCost) := by
  have hnq : (plan.executionOrder.length : ℚ) ≠ 0 := by
    simpa using hn
  refine ⟨?_, ?_, ?_⟩
  · intro hst
    simp only [adaptPlan, analyzeFeedbackImpact, determineAdaptationStrategy,
      applyAdaptations, recalculateEstimates, hst]
    simp only [reduceCtorEq, if_true, if_false, and_self, ite_true]
    exact rescale_arith _ _ _ _ hD
  · intro hst
    simp only [adaptPlan, analyzeFeedbackImpact, determineAdaptationStrategy,
      applyAdaptations, recalculateEstimates, hst]
    simp only [reduceCtorEq, false_and, if_false, ite_true, if_true, ite_false]
    by_cases hmem : fb.taskId ∈ plan.executionOrder
    · have hlen : ((plan.executionOrder.erase fb.taskId) ++ [fb.taskId]).length
          = plan.executionOrder.length := by
        simp only [List.length_append, List.length_erase_of_mem hmem,
          List.length_cons, List.length_nil]
        exact Nat.succ_pred_eq_of_pos (List.length_pos.mpr hn)
      simp only [hmem, if_true, ite_true, hlen]
      exact rescale_arith _ _ _ _ hD
    · simp only [hmem, if_false, ite_false]
      exact rescale_arith _ _ _ _ hD
  · intro hst ha
    have hadj : determineAdaptationStrategy (analyzeFeedbackImpact plan fb) fb
        = ⟨StrategyType.adjust_estimates, "minimal"⟩ := by
      rcases hst with h | h <;>
        simp [determineAdaptationStrategy, analyzeFeedbackImpact, h]
    simp only [adaptPlan, hadj, applyAdaptations, recalculateEstimates]
    have key := rescale_arith plan.estimatedDuration plan.estimatedCost
      fb.actualDuration (plan.executionOrder.length : ℚ) hD
    rw [key.1]
    constructor
    · field_simp
    · field_simp

/-- Witness for C7 (amended) at the concrete two-task plan, `failed` case. -/
theorem adaptPlan_estimate_update_witness :
    planW.estimatedDuration ≠ 0
      ∧ planW.executionOrder ≠ []
      ∧ fbFailedW.status = FeedbackStatus.failed
      ∧ ((adaptPlan "p1" planW fbFailedW).estimatedDuration
          = fbFailedW.actualDuration *
            ((planW.executionOrder.filter (fun id => id ≠ fbFailedW.taskId)).length : ℚ)
        ∧ (adaptPlan "p1" planW fbFailedW).estimatedCost
          = planW.estimatedCost *
            (fbFailedW.actualDuration *
              ((planW.executionOrder.filter (fun id => id ≠ fbFailedW.taskId)).length : ℚ)) /
            planW.estimatedDuration) := by
  refine ⟨by norm_num [planW], by decide, rfl, ?_⟩
  exact (adaptPlan_estimate_update planW fbFailedW "p1"
    (by norm_num [planW]) (by decide)).1 rfl

/-! ### C8: the plan validator -/

/-- C8 counterexample: a payload with an *empty* `subGoals` array and a
*negative* `estimatedDuration` is accepted, because `![]` and `!(-5)` are
both false in JavaScript; the claim requires both to be rejected. -/
theorem validator_accepts_counterexample :
    validateDecomposition ⟨some [], some (-5)⟩
      = Except.ok ⟨some [], some (-5)⟩ := by rfl

lemma validateTasks_ok_iff (ts : List RawTask) :
    validateTasks ts = Except.ok ()
      ↔ ∀ t ∈ ts, t.id ≠ "" ∧ t.name ≠ "" ∧ t.type ≠ "" := by
  induction ts with
  | nil => simp [validateTasks]
  | cons t rest ih =>
    by_cases h : t.id = "" ∨ t.name = "" ∨ t.type = ""
    · simp only [validateTasks, if_pos h, List.forall_mem_cons, ih]
      constructor
      · intro hc
        exact absurd hc (by simp)
      · rintro ⟨⟨h1, h2, h3⟩, -⟩
        rcases h with h | h | h <;> simp_all
    · push_neg at h
      simp [validateTasks, h.1, h.2.1, h.2.2, ih, List.forall_mem_cons]

lemma validateSubGoals_ok_iff (sgs : List RawSubGoal) :
    validateSubGoals sgs = Except.ok ()
      ↔ ∀ sg ∈ sgs, sg.id ≠ "" ∧ sg.description ≠ "" ∧
          ∃ ts, sg.tasks = some ts ∧
            ∀ t ∈ ts, t.id ≠ "" ∧ t.name ≠ "" ∧ t.type ≠ "" := by
  induction sgs with
  | nil => simp [validateSubGoals]
  | cons sg rest ih =>
    by_cases h : sg.id = "" ∨ sg.description = "" ∨ sg.tasks = none
    · simp only [validateSubGoals, if_pos h, List.forall_mem_cons]
      apply iff_of_false (by simp)
      rintro ⟨⟨h1, h2, ts, hts, -⟩, -⟩
      rcases h with h | h | h
      · exact h1 h
      · exact h2 h
      · rw [hts] at h
        exact Option.some_ne_none ts h
    · push_neg at h
      obtain ⟨h1, h2, h3⟩ := h
      obtain ⟨ts, hts⟩ := Option.ne_none_iff_exists'.mp h3
      have hcond : ¬ (sg.id = "" ∨ sg.description = "" ∨ sg.tasks = none) := by
        simp [h1, h2, hts]
      rcases hvt : validateTasks ts with e | u
      · have hnall : ¬ ∀ t ∈ ts, t.id ≠ "" ∧ t.name ≠ "" ∧ t.type ≠ "" := by
          intro hall
          have hok := (validateTasks_ok_iff ts).mpr hall
          rw [hvt] at hok
          exact absurd hok (by simp)
        simp only [validateSubGoals]
        rw [if_neg hcond]
        simp only [hts, Option.getD_some, hvt, List.forall_mem_cons]
        apply iff_of_false (by simp)
        rintro ⟨⟨-, -, ts2, hts2, hall⟩, -⟩
        injection hts2 with hh
        subst hh
        exact hnall hall
      · cases u
        have hall := (validateTasks_ok_iff ts).mp hvt
        simp only [validateSubGoals]
        rw [if_neg hcond]
        simp only [hts, Option.getD_some, hvt, List.forall_mem_cons, ih]
        constructor
        · intro hrest
          exact ⟨⟨h1, h2, ts, rfl, hall⟩, hrest⟩
        · rintro ⟨-, hrest⟩
          exact hrest

/-- C8 amended: `validateDecomposition` accepts a payload exactly when
`subGoals` is present as an array (an *empty* array passes),
`estimatedDuration` is a *nonzero* number (negative values pass), every
subgoal has nonempty `id` and `description` and a present `tasks` array (an
*empty* array passes), and every task has nonempty `id`, `name` and `type`;
it rejects with the first violation otherwise. -/
theorem validateDecomposition_ok_iff (d : RawDecomposition) :
    validateDecomposition d = Except.ok d
      ↔ ∃ sgs, d.subGoals = some sgs
          ∧ (∃ q, d.estimatedDuration = some q ∧ q ≠ 0)
          ∧ ∀ sg ∈ sgs, sg.id ≠ "" ∧ sg.description ≠ "" ∧
              ∃ ts, sg.tasks = some ts ∧
                ∀ t ∈ ts, t.id ≠ "" ∧ t.name ≠ "" ∧ t.type ≠ "" := by
  rcases d with ⟨sgso, edo⟩
  rcases sgso with _ | sgs
  · simp [validateDecomposition]
  · rcases edo with _ | q
    · simp [validateDecomposition]
    · by_cases hq : q = 0
      · simp [validateDecomposition, hq]
      · rcases hvs : validateSubGoals sgs with e | u
        · have hnall : ¬ ∀ sg ∈ sgs, sg.id ≠ "" ∧ sg.description ≠ "" ∧
              ∃ ts, sg.tasks = some ts ∧
                ∀ t ∈ ts, t.id ≠ "" ∧ t.name ≠ "" ∧ t.type ≠ "" := by
            intro hall
            have hok := (validateSubGoals_ok_iff sgs).mpr hall
            rw [hvs] at hok
            exact absurd hok (by simp)
          simp only [validateDecomposition, if_neg hq, hvs]
          apply iff_of_false (by simp)
          rintro ⟨sgs2, hsgs2, -, hall⟩
          injection hsgs2 with hh
          subst hh
          exact hnall hall
        · cases u
          have hall := (validateSubGoals_ok_iff sgs).mp hvs
          simp only [validateDecomposition, if_neg hq, hvs]
          exact iff_of_true trivial ⟨sgs, rfl, ⟨q, rfl, hq⟩, hall⟩

/-! ### C9: the success-rate division -/

def emptyResults : ExecutionResults := ⟨"p", "completed", [], [], 0, 0, 1, []⟩

/-- C9 counterexample: with both task lists empty, the division `0 / 0` is
not guarded: the success rate is `NaN` (modelled `none`), and *both* the
strengths and the weaknesses lists are empty — the claim requires a guarded
rate of `0` with a non-empty weaknesses list. -/
theorem successRate_nan_counterexample :
    successRateJS emptyResults = none
      ∧ (reflectOnPerformance emptyResults).weaknesses = []
      ∧ (reflectOnPerformance emptyResults).strengths = [] := by
  exact ⟨rfl, rfl, rfl⟩

/-- C9 amended: `analyzePerformance` computes
`successRate = |completed| / (|completed| + |failed|)` with no guard: when
both lists are empty the rate is `NaN` (`none`), every `NaN` comparison is
false, and both the strengths and the weaknesses lists come out empty. -/
theorem successRate_no_guard (r : ExecutionResults) :
    (r.completedTasks = [] → r.failedTasks = [] →
      successRateJS r = none
        ∧ (analyzePerformance r).strengths = []
        ∧ (analyzePerformance r).weaknesses = []
        ∧ (reflectOnPerformance r).strengths = []
        ∧ (reflectOnPerformance r).weaknesses = [])
    ∧ (r.completedTasks.length + r.failedTasks.length ≠ 0 →
      successRateJS r = some ((r.completedTasks.length : ℚ) /
        ((r.completedTasks.length : ℚ) + (r.failedTasks.length : ℚ)))) := by
  constructor
  · intro h1 h2
    have hsr : successRateJS r = none := by simp [successRateJS, h1, h2]
    refine ⟨hsr, ?_, ?_, ?_, ?_⟩ <;>
      simp [analyzePerformance, reflectOnPerformance, hsr, optGt, optLt]
  · intro h
    simp [successRateJS, h]

/-- Witness for C9 (amended) at the empty results record. -/
theorem successRate_no_guard_witness :
    emptyResults.completedTasks = []
      ∧ emptyResults.failedTasks = []
      ∧ (successRateJS emptyResults = none
        ∧ (analyzePerformance emptyResults).strengths = []
        ∧ (analyzePerformance emptyResults).weaknesses = []
        ∧ (reflectOnPerformance emptyResults).strengths = []
        ∧ (reflectOnPerformance emptyResults).weaknesses = []) := by
  exact ⟨rfl, rfl, (successRate_no_guard emptyResults).1 rfl rfl⟩

/-! ### C3: parallel groups are only independent of the group starter -/

def taskU1 : Task := mkTask "A" 1 []

def taskU2 : Task := mkTask "B" 1 []

def taskU3 : Task := mkTask "C" 1 ["B"]

/-- C3 counterexample: on tasks `A`, `B`, `C(depends on B)` (no edges to or
from `A`), the identifier produces the single group `[A, B, C]`, whose
members `B` and `C` — neither of which started the group — carry a direct
dependency edge (`B ∈ dependencies(C)`). -/
theorem parallelGroups_pair_counterexample :
    identifyParallelGroups [taskU1, taskU2, taskU3]
        (buildDependencyGraph [taskU1, taskU2, taskU3]) = [["A", "B", "C"]]
      ∧ "B" ∈ depsOf (buildDependencyGraph [taskU1, taskU2, taskU3]) "C"
      ∧ "B" ∈ (["A", "B", "C"] : List String)
      ∧ "C" ∈ (["A", "B", "C"] : List String)
      ∧ "B" ≠ "C" := by
  exact ⟨rfl, by decide, by decide, by decide, by decide⟩

lemma addParallel_mem (g : DepGraph) (startId : String) :
    ∀ (l : List Task) (processed : List String),
      ∀ y ∈ (addParallel g startId l processed).1,
        canRunInParallel startId y g = true := by
  intro l
  induction l with
  | nil =>
    intro processed y hy
    simp [addParallel] at hy
  | cons t rest ih =>
    intro processed y hy
    by_cases h1 : t.id ∈ processed
    · rw [addParallel, if_pos h1] at hy
      exact ih _ y hy
    · by_cases h2 : canRunInParallel startId t.id g = true
      · rw [addParallel, if_neg h1, if_pos h2] at hy
        rcases List.mem_cons.mp hy with heq | hmem
        · rw [heq]; exact h2
        · exact ih _ y hmem
      · rw [addParallel, if_neg h1, if_neg h2] at hy
        exact ih _ y hy

lemma identifyParallelGroupsAux_starter (g : DepGraph) (allTasks : List Task) :
    ∀ (rem : List Task) (processed : List String) (group : List String),
      group ∈ identifyParallelGroupsAux g allTasks rem processed →
        ∃ first rest, group = first :: rest ∧
          ∀ y ∈ rest, canRunInParallel first y g = true := by
  intro rem
  induction rem with
  | nil =>
    intro processed group hg
    simp [identifyParallelGroupsAux] at hg
  | cons t rest ih =>
    intro processed group hg
    by_cases h1 : t.id ∈ processed
    · rw [identifyParallelGroupsAux, if_pos h1] at hg
      exact ih _ _ hg
    · rw [identifyParallelGroupsAux, if_neg h1] at hg
      by_cases h2 : (t.id :: (addParallel g t.id allTasks (processed ++ [t.id])).1).length > 1
      · rw [if_pos h2] at hg
        rcases List.mem_cons.mp hg with heq | hmem
        · exact ⟨t.id, _, heq, fun y hy => addParallel_mem g t.id allTasks _ y hy⟩
        · exact ih _ _ hmem
      · rw [if_neg h2] at hg
        exact ih _ _ hg

/-- C3 amended: every produced group consists of a starting task followed by
tasks none of which has a direct dependency edge to or from the *starter*;
independence among the non-starting members is not checked (and can fail,
see the counterexample). -/
theorem parallelGroups_starter_independent (tasks : List Task) (g : DepGraph)
    (group : List String) (hg : group ∈ identifyParallelGroups tasks g) :
    ∃ first rest, group = first :: rest ∧
      ∀ y ∈ rest, y ∉ depsOf g first ∧ first ∉ depsOf g y := by
  obtain ⟨first, rest, heq, hall⟩ :=
    identifyParallelGroupsAux_starter g tasks tasks [] group hg
  refine ⟨first, rest, heq, fun y hy => ?_⟩
  have h := hall y hy
  simp only [canRunInParallel, Bool.and_eq_true, Bool.not_eq_true'] at h
  exact ⟨by simpa using h.1, by simpa using h.2⟩

/-- Witness for C3 (amended) at the counterexample task set. -/
theorem parallelGroups_starter_independent_witness :
    (["A", "B", "C"] : List String) ∈ identifyParallelGroups [taskU1, taskU2, taskU3]
        (buildDependencyGraph [taskU1, taskU2, taskU3])
      ∧ ∃ first rest, (["A", "B", "C"] : List String) = first :: rest ∧
          ∀ y ∈ rest, y ∉ depsOf (buildDependencyGraph [taskU1, taskU2, taskU3]) first
            ∧ first ∉ depsOf (buildDependencyGraph [taskU1, taskU2, taskU3]) y := by
  refine ⟨by decide, ?_⟩
  exact parallelGroups_starter_independent [taskU1, taskU2, taskU3]
    (buildDependencyGraph [taskU1, taskU2, taskU3]) ["A", "B", "C"] (by decide)

/-! ### Scheduler correctness (C1, C2, C4)

The DFS of `calculateExecutionOrder` is verified through an invariant on
`SchedState`: the emitted order is duplicate-free and dependency-closed, the
`visiting` stack is a chain of dependency edges, and everything stays inside
the ids mentioned by the graph. -/

/-- `l` lists every task after all of its dependencies (with unknown ids
having no dependencies). -/
def TopoSorted (g : DepGraph) (l : List String) : Prop :=
  ∀ l1 x l2, l = l1 ++ x :: l2 → ∀ d ∈ depsOf g x, d ∈ l1

/-- The number of dependency violations when re-checking `order` against the
original dependency sets of `tasks`: a violation is a dependency that does
not appear strictly before its task. -/
def dependencyViolations (tasks : List Task) (order : List String) : Nat :=
  (tasks.map (fun t =>
    (t.dependencies.filter (fun d =>
      !(decide (order.indexOf d < order.indexOf t.id)))).length)).sum

lemma depsOf_subset_allIds (g : DepGraph) (x : String) :
    ∀ d ∈ depsOf g x, d ∈ allIds g := by
  intro d hd
  unfold depsOf at hd
  rcases hfind : g.find? (fun p => p.1 = x) with _ | p
  · rw [hfind] at hd
    simp at hd
  · rw [hfind] at hd
    have hp : p ∈ g := List.mem_of_find?_eq_some hfind
    unfold allIds
    refine List.mem_append_right _ ?_
    exact List.mem_flatten.mpr ⟨p.2, List.mem_map_of_mem Prod.snd hp, hd⟩

lemma mem_keys_of_depsOf_ne_nil (g : DepGraph) (x : String)
    (h : depsOf g x ≠ []) : x ∈ graphKeys g := by
  unfold depsOf at h
  rcases hfind : g.find? (fun p => p.1 = x) with _ | p
  · rw [hfind] at h
    exact absurd rfl h
  · have hp : p ∈ g := List.mem_of_find?_eq_some hfind
    have hpx : p.1 = x := by
      have := List.find?_some hfind
      simpa using this
    rw [← hpx]
    exact List.mem_map_of_mem Prod.fst hp

/-- The DFS invariant. -/
structure SchedInv (g : DepGraph) (s : SchedState) : Prop where
  nodupOrder : s.order.Nodup
  visEq : ∀ x, x ∈ s.visited ↔ x ∈ s.order
  topo : TopoSorted g s.order
  nodupVisiting : s.visiting.Nodup
  chain : s.visiting.Chain' (fun a b => a ∈ depsOf g b)
  disj : ∀ x ∈ s.visiting, x ∉ s.visited
  orderSub : ∀ x ∈ s.order, x ∈ allIds g
  visitingSub : ∀ x ∈ s.visiting, x ∈ allIds g

/-- Walking the `visiting` stack from any member up to its head follows
dependency edges. -/
lemma chain_reaches (g : DepGraph) :
    ∀ (l : List String) (h0 : String),
      l.Chain' (fun a b => a ∈ depsOf g b) → l.head? = some h0 →
      ∀ x ∈ l, Relation.ReflTransGen (edge g) x h0 := by
  intro l
  induction l with
  | nil =>
    intro h0 _ hh
    simp at hh
  | cons a rest ih =>
    intro h0 hchain hh x hx
    have ha : h0 = a := by
      simp only [List.head?_cons, Option.some.injEq] at hh
      exact hh.symm
    subst ha
    rcases List.mem_cons.mp hx with rfl | hx2
    · exact Relation.ReflTransGen.refl
    · rcases rest with _ | ⟨b, rest2⟩
      · simp at hx2
      · obtain ⟨hab, hchain2⟩ := List.chain'_cons.mp hchain
        have hxb : Relation.ReflTransGen (edge g) x b := ih b hchain2 rfl x hx2
        exact Relation.ReflTransGen.tail hxb hab

/-- Appending a task whose dependencies are already listed preserves
topological sortedness. -/
lemma topoSorted_append (g : DepGraph) (l : List String) (t : String)
    (h : TopoSorted g l) (hdeps : ∀ d ∈ depsOf g t, d ∈ l) :
    TopoSorted g (l ++ [t]) := by
  intro l1 x l2 heq d hd
  rcases List.append_eq_append_iff.mp heq with ⟨a2, ha1, ha2⟩ | ⟨c2, hc1, hc2⟩
  · rcases a2 with _ | ⟨y, a3⟩
    · simp only [List.nil_append] at ha2
      injection ha2 with hx hl2
      subst hx
      rw [ha1, List.append_nil]
      exact hdeps d hd
    · have := congrArg List.length ha2
      simp at this
  · rcases c2 with _ | ⟨y, c3⟩
    · simp only [List.nil_append] at hc2
      injection hc2 with hx hl2
      subst hx
      rw [List.append_nil] at hc1
      rw [← hc1]
      exact hdeps d hd
    · injection hc2 with hxy hl2
      subst hxy
      exact h l1 x c3 (by rw [hc1]) d hd

/-- What a sufficiently-fuelled visitor guarantees: on success the `visiting`
stack is restored, the invariant is maintained, the order only grows, the
visited set only grows and now holds the argument; on failure the error is
the circular-dependency message for a task that lies on a cycle. -/
def VisitorSpec (g : DepGraph) (n : Nat)
    (f : String → SchedState → Except String SchedState) : Prop :=
  ∀ t s, SchedInv g s → t ∈ allIds g →
    (∀ h, s.visiting.head? = some h → t ∈ depsOf g h) →
    (allIds g).dedup.length + 1 ≤ n + s.visiting.length →
    match f t s with
    | .ok s2 => s2.visiting = s.visiting ∧ SchedInv g s2
        ∧ (∃ ext, s2.order = s.order ++ ext)
        ∧ (∀ x ∈ s.visited, x ∈ s2.visited)
        ∧ t ∈ s2.visited
    | .error e => ∃ c, e = circularMsg c ∧ Relation.TransGen (edge g) c c

/-- `runVisits` lifts a correct visitor to lists of task ids. -/
lemma runVisits_spec (g : DepGraph) (n : Nat)
    (f : String → SchedState → Except String SchedState) (hf : VisitorSpec g n f) :
    ∀ (ts : List String) (s : SchedState), SchedInv g s →
      (∀ t ∈ ts, t ∈ allIds g) →
      (∀ t ∈ ts, ∀ h, s.visiting.head? = some h → t ∈ depsOf g h) →
      (allIds g).dedup.length + 1 ≤ n + s.visiting.length →
      match runVisits f ts s with
      | .ok s2 => s2.visiting = s.visiting ∧ SchedInv g s2
          ∧ (∃ ext, s2.order = s.order ++ ext)
          ∧ (∀ x ∈ s.visited, x ∈ s2.visited)
          ∧ (∀ t ∈ ts, t ∈ s2.visited)
      | .error e => ∃ c, e = circularMsg c ∧ Relation.TransGen (edge g) c c := by
  intro ts
  induction ts with
  | nil =>
    intro s hs _ _ _
    exact ⟨rfl, hs, ⟨[], by simp⟩, fun x hx => hx, by simp⟩
  | cons t ts ih =>
    intro s hs hmem hlink hfuel
    have h1 := hf t s hs (hmem t (by simp))
      (fun h hh => hlink t (by simp) h hh) hfuel
    rcases hft : f t s with e | s2
    · simp only [hft] at h1
      simp only [runVisits, hft]
      exact h1
    · simp only [hft] at h1
      obtain ⟨hveq, hs2, hext, hgrow, htvis⟩ := h1
      have ih2 := ih s2 hs2 (fun u hu => hmem u (List.mem_cons_of_mem t hu))
        (fun u hu h hh => hlink u (List.mem_cons_of_mem t hu) h (by rw [← hveq]; exact hh))
        (by rw [hveq]; exact hfuel)
      rcases hrun : runVisits f ts s2 with e2 | s3
      · simp only [hrun] at ih2
        simp only [runVisits, hft, hrun]
        exact ih2
      · simp only [hrun] at ih2
        obtain ⟨hveq2, hs3, hext2, hgrow2, hall2⟩ := ih2
        simp only [runVisits, hft, hrun]
        refine ⟨hveq2.trans hveq, hs3, ?_, fun x hx => hgrow2 x (hgrow x hx), ?_⟩
        · obtain ⟨e1, he1⟩ := hext
          obtain ⟨e2a, he2⟩ := hext2
          exact ⟨e1 ++ e2a, by rw [he2, he1, List.append_assoc]⟩
        · intro u hu
          rcases List.mem_cons.mp hu with rfl | hu2
          · exact hgrow2 u htvis
          · exact hall2 u hu2

/-- The `visit` closure satisfies `VisitorSpec` at every depth budget: the
closing argument is that the `visiting` stack holds distinct ids of the
graph, so it can never grow past `(allIds g).dedup.length` — the
`"fuel exhausted"` branch is unreachable under the stated budget. -/
lemma visitFuel_spec (g : DepGraph) : ∀ n, VisitorSpec g n (visitFuel g n) := by
  intro n
  induction n with
  | zero =>
    intro t s hs ht hlink hfuel
    exfalso
    have hsub : s.visiting ⊆ (allIds g).dedup :=
      fun x hx => List.mem_dedup.mpr (hs.visitingSub x hx)
    have hle : s.visiting.length ≤ (allIds g).dedup.length :=
      (List.subperm_of_subset hs.nodupVisiting hsub).length_le
    omega
  | succ n ih =>
    intro t s hs ht hlink hfuel
    by_cases hvis : t ∈ s.visiting
    · simp only [visitFuel, if_pos hvis]
      rcases hv : s.visiting with _ | ⟨h0, rest⟩
      · rw [hv] at hvis
        simp at hvis
      · have hhead : s.visiting.head? = some h0 := by rw [hv]; rfl
        have hlink0 : t ∈ depsOf g h0 := hlink h0 hhead
        have hpath : Relation.ReflTransGen (edge g) t h0 := by
          have := chain_reaches g s.visiting h0 hs.chain hhead t hvis
          exact this
        exact ⟨t, rfl, Relation.TransGen.tail' hpath hlink0⟩
    · by_cases hvisd : t ∈ s.visited
      · simp only [visitFuel, if_neg hvis, if_pos hvisd]
        exact ⟨by trivial, hs, ⟨[], by simp⟩, fun x hx => hx, hvisd⟩
      · have hs1 : SchedInv g ⟨s.order, s.visited, t :: s.visiting⟩ :=
          { nodupOrder := hs.nodupOrder
            visEq := hs.visEq
            topo := hs.topo
            nodupVisiting := List.nodup_cons.mpr ⟨hvis, hs.nodupVisiting⟩
            chain := List.chain'_cons'.mpr ⟨fun h hh => hlink h hh, hs.chain⟩
            disj := by
              intro x hx
              rcases List.mem_cons.mp hx with rfl | hx2
              · exact hvisd
              · exact hs.disj x hx2
            orderSub := hs.orderSub
            visitingSub := by
              intro x hx
              rcases List.mem_cons.mp hx with rfl | hx2
              · exact ht
              · exact hs.visitingSub x hx2 }
        have hfuel1 : (allIds g).dedup.length + 1
            ≤ n + (SchedState.mk s.order s.visited (t :: s.visiting)).visiting.length := by
          simp only [List.length_cons]
          omega
        have hrv := runVisits_spec g n (visitFuel g n) ih (depsOf g t)
          ⟨s.order, s.visited, t :: s.visiting⟩ hs1
          (fun d hd => depsOf_subset_allIds g t d hd)
          (fun d hd h hh => by
            simp only [List.head?_cons, Option.some.injEq] at hh
            rw [← hh]
            exact hd)
          hfuel1
        simp only [visitFuel, if_neg hvis, if_neg hvisd]
        rcases hrun : runVisits (visitFuel g n) (depsOf g t)
            ⟨s.order, s.visited, t :: s.visiting⟩ with e | s2
        · simp only [hrun] at hrv
          exact hrv
        · simp only [hrun] at hrv
          obtain ⟨hveq, hs2, ⟨ext, hext⟩, hgrow, halldeps⟩ := hrv
          have hveq2 : s2.visiting = t :: s.visiting := hveq
          have herase : s2.visiting.erase t = s.visiting := by
            rw [hveq2]
            exact List.erase_cons_head t s.visiting
          have htno : t ∉ s2.visited := by
            intro hc
            exact hs2.disj t (by rw [hveq2]; exact List.mem_cons_self t s.visiting) hc
          have htnoOrder : t ∉ s2.order := fun hc => htno ((hs2.visEq t).mpr hc)
          have hext2 : s2.order = s.order ++ ext := hext
          refine ⟨?_, ?_, ?_, ?_, ?_⟩
          · exact herase
          · exact
              { nodupOrder := by
                  simp only [List.nodup_append, List.nodup_cons, List.nodup_nil,
                    and_true, List.not_mem_nil, not_false_iff, true_and]
                  exact ⟨hs2.nodupOrder, by
                    intro a ha hb
                    simp only [List.mem_singleton] at hb
                    subst hb
                    exact htnoOrder ha⟩
                visEq := by
                  intro x
                  simp only [List.mem_cons, List.mem_append, List.mem_singleton]
                  rw [hs2.visEq x]
                  tauto
                topo := topoSorted_append g s2.order t hs2.topo
                  (fun d hd => (hs2.visEq d).mp (halldeps d hd))
                nodupVisiting := by rw [herase]; exact hs.nodupVisiting
                chain := by rw [herase]; exact hs.chain
                disj := by
                  intro x hx
                  rw [herase] at hx
                  intro hc
                  rcases List.mem_cons.mp hc with rfl | hc2
                  · exact hvis hx
                  · exact hs2.disj x (by rw [hveq2]; exact List.mem_cons_of_mem t hx) hc2
                orderSub := by
                  intro x hx
                  rcases List.mem_append.mp hx with hx2 | hx2
                  · exact hs2.orderSub x hx2
                  · simp only [List.mem_singleton] at hx2
                    subst hx2
                    exact ht
                visitingSub := by
                  intro x hx
                  rw [herase] at hx
                  exact hs.visitingSub x hx }
          · exact ⟨ext ++ [t], by rw [hext2, List.append_assoc]⟩
          · intro x hx
            exact List.mem_cons_of_mem t (hgrow x hx)
          · exact List.mem_cons_self t s2.visited

/-- Top-level dichotomy for `calculateExecutionOrder`: either it succeeds
with a duplicate-free topologically sorted order containing every key, or it
fails with the circular-dependency message for a task on an actual cycle. -/
lemma calculateExecutionOrder_spec (g : DepGraph) (constraints : PlanningConstraints) :
    match calculateExecutionOrder g constraints with
    | .ok order => order.Nodup ∧ TopoSorted g order
        ∧ (∀ k ∈ graphKeys g, k ∈ order) ∧ (∀ x ∈ order, x ∈ allIds g)
    | .error e => ∃ c, e = circularMsg c ∧ Relation.TransGen (edge g) c c := by
  have hinv : SchedInv g ⟨[], [], []⟩ :=
    { nodupOrder := List.nodup_nil
      visEq := by simp
      topo := by
        intro l1 x l2 heq
        exact absurd heq (by simp)
      nodupVisiting := List.nodup_nil
      chain := List.chain'_nil
      disj := by simp
      orderSub := by simp
      visitingSub := by simp }
  have hfuel : (allIds g).dedup.length + 1
      ≤ schedFuel g + ([] : List String).length := by
    have h1 : (allIds g).dedup.length ≤ (allIds g).length :=
      (List.dedup_sublist _).length_le
    have h2 : (allIds g).length = g.length + (g.map (fun p => p.2.length)).sum := by
      simp [allIds, graphKeys, List.length_flatten, Function.comp_def]
    simp only [List.length_nil, Nat.add_zero, schedFuel]
    omega
  have hrv := runVisits_spec g (schedFuel g) (visitFuel g (schedFuel g))
    (visitFuel_spec g (schedFuel g)) (graphKeys g) ⟨[], [], []⟩ hinv
    (fun k hk => List.mem_append_left _ hk)
    (fun t _ h hh => by simp at hh)
    hfuel
  unfold calculateExecutionOrder
  rcases hrun : runVisits (visitFuel g (schedFuel g)) (graphKeys g) ⟨[], [], []⟩ with e | s
  · simp only [hrun] at hrv
    exact hrv
  · simp only [hrun] at hrv
    obtain ⟨-, hsinv, -, -, hkeys⟩ := hrv
    exact ⟨hsinv.nodupOrder, hsinv.topo,
      fun k hk => (hsinv.visEq k).mp (hkeys k hk), hsinv.orderSub⟩

/-- In a duplicate-free topologically sorted list, every dependency of a
listed task appears at a strictly smaller index. -/
lemma topo_indexOf_lt (g : DepGraph) (order : List String)
    (hnd : order.Nodup) (ht : TopoSorted g order)
    (x : String) (hx : x ∈ order) (d : String) (hd : d ∈ depsOf g x) :
    d ∈ order ∧ order.indexOf d < order.indexOf x := by
  obtain ⟨l1, l2, heq⟩ := List.append_of_mem hx
  have hdl1 : d ∈ l1 := ht l1 x l2 heq d hd
  have hdmem : d ∈ order := by
    rw [heq]
    exact List.mem_append_left _ hdl1
  refine ⟨hdmem, ?_⟩
  have hxl1 : x ∉ l1 := by
    intro hc
    rw [heq] at hnd
    exact (List.disjoint_of_nodup_append hnd) hc (List.mem_cons_self x l2)
  have hidxd : order.indexOf d = l1.indexOf d := by
    rw [heq]
    exact List.indexOf_append_of_mem hdl1
  have hidxx : order.indexOf x = l1.length + (x :: l2).indexOf x := by
    rw [heq]
    exact List.indexOf_append_of_not_mem hxl1
  have hself : (x :: l2).indexOf x = 0 := List.indexOf_cons_self x l2
  have hdlt : l1.indexOf d < l1.length := List.indexOf_lt_length.mpr hdl1
  omega

/-- Index monotonicity along a transitive dependency path through a
topologically sorted order that contains every key. -/
lemma transGen_indexOf_lt (g : DepGraph) (order : List String)
    (hnd : order.Nodup) (ht : TopoSorted g order) :
    ∀ a b, Relation.TransGen (edge g) a b → a ∈ order →
      b ∈ order ∧ order.indexOf b < order.indexOf a := by
  intro a b h
  induction h with
  | single e =>
    intro ha
    exact topo_indexOf_lt g order hnd ht a ha _ e
  | tail hab e ih =>
    intro ha
    obtain ⟨hc, hlt⟩ := ih ha
    obtain ⟨hb, hlt2⟩ := topo_indexOf_lt g order hnd ht _ hc _ e
    exact ⟨hb, lt_trans hlt2 hlt⟩

/-- Every transitive path starts with an edge. -/
lemma transGen_head_edge {r : String → String → Prop} {a b : String}
    (h : Relation.TransGen r a b) : ∃ m, r a m := by
  induction h with
  | single e => exact ⟨_, e⟩
  | tail _ _ ih => exact ih

/-- A node with an outgoing edge is a key of the graph. -/
lemma mem_keys_of_edge (g : DepGraph) (a b : String) (h : edge g a b) :
    a ∈ graphKeys g := by
  apply mem_keys_of_depsOf_ne_nil
  intro hc
  rw [edge, hc] at h
  simp at h

/-- C2, graph form: a cyclic dependency graph makes the scheduler fail with
the circular-dependency message for a task that lies on a cycle. -/
lemma calculateExecutionOrder_cycle (g : DepGraph) (constraints : PlanningConstraints)
    (hcyc : ∃ c, Relation.TransGen (edge g) c c) :
    ∃ t, calculateExecutionOrder g constraints = .error (circularMsg t)
      ∧ Relation.TransGen (edge g) t t := by
  obtain ⟨c, hc⟩ := hcyc
  have hspec := calculateExecutionOrder_spec g constraints
  rcases hres : calculateExecutionOrder g constraints with e | order
  · simp only [hres] at hspec
    obtain ⟨t, hmsg, hcyct⟩ := hspec
    exact ⟨t, by rw [hmsg], hcyct⟩
  · exfalso
    simp only [hres] at hspec
    obtain ⟨hnd, htopo, hkeys, -⟩ := hspec
    have hcmem : c ∈ order := by
      apply hkeys
      obtain ⟨m, h1⟩ := transGen_head_edge hc
      exact mem_keys_of_edge g c m h1
    have := transGen_indexOf_lt g order hnd htopo c c hc hcmem
    omega

/-! ### The graph builder on duplicate-free task lists -/

lemma foldl_mapSet (tasks : List Task) :
    ∀ (m : DepGraph), (∀ t ∈ tasks, ∀ p ∈ m, p.1 ≠ t.id) →
      (tasks.map Task.id).Nodup →
      tasks.foldl (fun m t => mapSet m t.id t.dependencies) m
        = m ++ tasks.map (fun t => (t.id, t.dependencies)) := by
  induction tasks with
  | nil => simp
  | cons t rest ih =>
    intro m hdisj hnd
    simp only [List.foldl_cons]
    have hnotin : ¬ m.any (fun p => p.1 = t.id) = true := by
      simp only [List.any_eq_true, not_exists, not_and]
      intro p hp
      simp only [decide_eq_true_eq]
      exact hdisj t (List.mem_cons_self t rest) p hp
    rw [List.map_cons, List.nodup_cons] at hnd
    have hstep : mapSet m t.id t.dependencies = m ++ [(t.id, t.dependencies)] := by
      unfold mapSet
      rw [if_neg hnotin]
    rw [hstep, ih (m ++ [(t.id, t.dependencies)]) ?_ hnd.2]
    · simp
    · intro u hu p hp
      rcases List.mem_append.mp hp with hp2 | hp2
      · exact hdisj u (List.mem_cons_of_mem t hu) p hp2
      · simp only [List.mem_singleton] at hp2
        subst hp2
        intro hc
        apply hnd.1
        rw [show t.id = u.id from hc]
        exact List.mem_map_of_mem Task.id hu

lemma buildDependencyGraph_eq (tasks : List Task)
    (hnd : (tasks.map Task.id).Nodup) :
    buildDependencyGraph tasks = tasks.map (fun t => (t.id, t.dependencies)) := by
  unfold buildDependencyGraph
  simpa using foldl_mapSet tasks [] (by simp) hnd

lemma graphKeys_build (tasks : List Task) (hnd : (tasks.map Task.id).Nodup) :
    graphKeys (buildDependencyGraph tasks) = tasks.map Task.id := by
  rw [buildDependencyGraph_eq tasks hnd]
  simp [graphKeys, List.map_map, Function.comp_def]

lemma depsOf_build (tasks : List Task) (hnd : (tasks.map Task.id).Nodup) :
    ∀ t ∈ tasks, depsOf (buildDependencyGraph tasks) t.id = t.dependencies := by
  rw [buildDependencyGraph_eq tasks hnd]
  induction tasks with
  | nil => simp
  | cons u rest ih =>
    intro t ht
    rw [List.map_cons, List.nodup_cons] at hnd
    rcases List.mem_cons.mp ht with rfl | ht2
    · unfold depsOf
      rw [List.map_cons, List.find?_cons_of_pos _ (by simp)]
    · have hne : u.id ≠ t.id := by
        intro hc
        exact hnd.1 (hc ▸ List.mem_map_of_mem Task.id ht2)
      unfold depsOf
      rw [List.map_cons, List.find?_cons_of_neg _ (by simp [hne])]
      exact ih hnd.2 t ht2

lemma allIds_closed (tasks : List Task) (hnd : (tasks.map Task.id).Nodup)
    (hclosed : ∀ t ∈ tasks, ∀ d ∈ t.dependencies, d ∈ tasks.map Task.id) :
    ∀ x ∈ allIds (buildDependencyGraph tasks),
      x ∈ graphKeys (buildDependencyGraph tasks) := by
  intro x hx
  rw [buildDependencyGraph_eq tasks hnd] at hx
  rw [graphKeys_build tasks hnd]
  unfold allIds graphKeys at hx
  rcases List.mem_append.mp hx with hx2 | hx2
  · simpa [List.map_map, Function.comp_def] using hx2
  · rw [List.map_map] at hx2
    obtain ⟨deps, hdeps, hxd⟩ := List.mem_flatten.mp hx2
    obtain ⟨t, ht, hteq⟩ := List.mem_map.mp hdeps
    subst hteq
    exact hclosed t ht x hxd

/-! ### C1: topological correctness on acyclic, closed task sets -/

/-- C1: when ids are distinct, every dependency names a task of the list,
and the dependency graph is acyclic, `calculateExecutionOrder` succeeds; the
produced order is a permutation of all task ids, is topologically sorted,
and re-checking it against the original dependency sets finds zero
violations. -/
theorem scheduler_correct (tasks : List Task) (constraints : PlanningConstraints)
    (hnd : (tasks.map Task.id).Nodup)
    (hclosed : ∀ t ∈ tasks, ∀ d ∈ t.dependencies, d ∈ tasks.map Task.id)
    (hacyclic : ∀ x, ¬ Relation.TransGen (edge (buildDependencyGraph tasks)) x x) :
    ∃ order, calculateExecutionOrder (buildDependencyGraph tasks) constraints
        = Except.ok order
      ∧ order.Perm (tasks.map Task.id)
      ∧ TopoSorted (buildDependencyGraph tasks) order
      ∧ dependencyViolations tasks order = 0 := by
  have hspec := calculateExecutionOrder_spec (buildDependencyGraph tasks) constraints
  rcases hres : calculateExecutionOrder (buildDependencyGraph tasks) constraints
    with e | order
  · simp only [hres] at hspec
    obtain ⟨c, -, hcyc⟩ := hspec
    exact absurd hcyc (hacyclic c)
  · simp only [hres] at hspec
    obtain ⟨hndo, htopo, hkeys, hsub⟩ := hspec
    have hkeq := graphKeys_build tasks hnd
    have hperm : order.Perm (tasks.map Task.id) := by
      refine (List.perm_ext_iff_of_nodup hndo (by rw [← hkeq]; exact hkeq ▸ hnd)).mpr ?_
      intro a
      constructor
      · intro ha
        rw [← hkeq]
        exact allIds_closed tasks hnd hclosed a (hsub a ha)
      · intro ha
        exact hkeys a (by rw [hkeq]; exact ha)
    refine ⟨order, rfl, hperm, htopo, ?_⟩
    unfold dependencyViolations
    apply List.sum_eq_zero
    intro v hv
    simp only [List.mem_map] at hv
    obtain ⟨t, ht, rfl⟩ := hv
    rw [List.length_eq_zero, List.filter_eq_nil_iff]
    intro d hd
    have hdeps : d ∈ depsOf (buildDependencyGraph tasks) t.id := by
      rw [depsOf_build tasks hnd t ht]
      exact hd
    have htid : t.id ∈ order := by
      apply hkeys
      rw [hkeq]
      exact List.mem_map_of_mem Task.id ht
    have hlt := (topo_indexOf_lt _ order hndo htopo t.id htid d hdeps).2
    simp [hlt]

/-- A graph whose every entry has an empty dependency list has no cycles. -/
lemma acyclic_of_no_deps (g : DepGraph) (hall : ∀ p ∈ g, p.2 = []) :
    ∀ x, ¬ Relation.TransGen (edge g) x x := by
  have hdeps : ∀ x, depsOf g x = [] := by
    intro x
    unfold depsOf
    rcases hfind : g.find? (fun p => p.1 = x) with _ | p
    · rw [hfind]
    · rw [hfind]
      exact hall p (List.mem_of_find?_eq_some hfind)
  intro x hx
  obtain ⟨m, hm⟩ := transGen_head_edge hx
  rw [edge, hdeps] at hm
  simp at hm

def taskW1 : Task := mkTask "T" 1 []

/-- Witness for C1 at a one-task list with no dependencies. -/
theorem scheduler_correct_witness :
    (([taskW1].map Task.id).Nodup
      ∧ (∀ t ∈ [taskW1], ∀ d ∈ t.dependencies, d ∈ [taskW1].map Task.id)
      ∧ (∀ x, ¬ Relation.TransGen (edge (buildDependencyGraph [taskW1])) x x))
      ∧ ∃ order, calculateExecutionOrder (buildDependencyGraph [taskW1]) noConstraints
          = Except.ok order
        ∧ order.Perm ([taskW1].map Task.id)
        ∧ TopoSorted (buildDependencyGraph [taskW1]) order
        ∧ dependencyViolations [taskW1] order = 0 := by
  have hac : ∀ x, ¬ Relation.TransGen (edge (buildDependencyGraph [taskW1])) x x :=
    acyclic_of_no_deps _ (by decide)
  exact ⟨⟨by decide, by decide, hac⟩,
    scheduler_correct [taskW1] noConstraints (by decide) (by decide) hac⟩

/-! ### C2: cycles are reported -/

/-- C2: for every task list whose dependency graph contains a cycle,
`calculateExecutionOrder` fails with the circular-dependency error naming a
task that lies on a cycle, and no execution order is produced. -/
theorem scheduler_cycle_error (tasks : List Task) (constraints : PlanningConstraints)
    (hcyc : ∃ c, Relation.TransGen (edge (buildDependencyGraph tasks)) c c) :
    ∃ t, calculateExecutionOrder (buildDependencyGraph tasks) constraints
        = Except.error (circularMsg t)
      ∧ Relation.TransGen (edge (buildDependencyGraph tasks)) t t :=
  calculateExecutionOrder_cycle (buildDependencyGraph tasks) constraints hcyc

def taskLoop : Task := mkTask "A" 1 ["A"]

/-- Witness for C2 at a one-task list with a self-dependency. -/
theorem scheduler_cycle_error_witness :
    (∃ c, Relation.TransGen (edge (buildDependencyGraph [taskLoop])) c c)
      ∧ ∃ t, calculateExecutionOrder (buildDependencyGraph [taskLoop]) noConstraints
          = Except.error (circularMsg t)
        ∧ Relation.TransGen (edge (buildDependencyGraph [taskLoop])) t t := by
  have hcyc : ∃ c, Relation.TransGen (edge (buildDependencyGraph [taskLoop])) c c :=
    ⟨"A", Relation.TransGen.single (by
      show "A" ∈ depsOf (buildDependencyGraph [taskLoop]) "A"
      decide)⟩
  exact ⟨hcyc, scheduler_cycle_error [taskLoop] noConstraints hcyc⟩

/-! ### C4: dangling references are scheduled, not rejected -/

def taskZref : Task := mkTask "A" 1 ["Z"]

/-- C4 counterexample: a task referencing the unknown id `Z` is scheduled
without any error: the scheduler emits `["Z", "A"]` — the dangling id itself
appears in the order — and `createExecutionPlan` returns a plan, instead of
failing with an unknown-reference error. -/
theorem unknownRef_schedules_counterexample :
    calculateExecutionOrder (buildDependencyGraph [taskZref]) noConstraints
        = Except.ok ["Z", "A"]
      ∧ (createExecutionPlan (fun _ => "u") 0 [taskZref] noConstraints).map
          ExecutionPlan.executionOrder = Except.ok ["Z", "A"] := by
  exact ⟨rfl, rfl⟩

/-- An explicit rank function witnesses acyclicity. -/
lemma acyclic_of_rank (g : DepGraph) (rank : String → Nat)
    (h : ∀ x y, y ∈ depsOf g x → rank y < rank x) :
    ∀ x, ¬ Relation.TransGen (edge g) x x := by
  have mono : ∀ a b, Relation.TransGen (edge g) a b → rank b < rank a := by
    intro a b hab
    induction hab with
    | single e => exact h _ _ e
    | tail _ e ih => exact lt_trans (h _ _ e) ih
  intro x hx
  exact lt_irrefl _ (mono x x hx)

lemma depsOf_cons (p : String × List String) (g : DepGraph) (x : String) :
    depsOf (p :: g) x = if p.1 = x then p.2 else depsOf g x := by
  by_cases h : p.1 = x
  · unfold depsOf
    rw [List.find?_cons_of_pos _ (by simp [h]), if_pos h]
  · unfold depsOf
    rw [List.find?_cons_of_neg _ (by simp [h]), if_neg h]

/-- C4 amended: `buildDependencyGraph` performs no reference check, and a
dangling dependency id does not make scheduling fail: the scheduler treats
it as a task with no dependencies and the id appears in the produced
execution order. -/
theorem unknownRef_included_in_order (tasks : List Task)
    (constraints : PlanningConstraints)
    (hnd : (tasks.map Task.id).Nodup)
    (hacyclic : ∀ x, ¬ Relation.TransGen (edge (buildDependencyGraph tasks)) x x)
    (t : Task) (ht : t ∈ tasks) (d : String) (hd : d ∈ t.dependencies)
    (_hdangling : d ∉ tasks.map Task.id) :
    ∃ order, calculateExecutionOrder (buildDependencyGraph tasks) constraints
        = Except.ok order
      ∧ d ∈ order := by
  have hspec := calculateExecutionOrder_spec (buildDependencyGraph tasks) constraints
  rcases hres : calculateExecutionOrder (buildDependencyGraph tasks) constraints
    with e | order
  · simp only [hres] at hspec
    obtain ⟨c, -, hcyc⟩ := hspec
    exact absurd hcyc (hacyclic c)
  · simp only [hres] at hspec
    obtain ⟨hndo, htopo, hkeys, -⟩ := hspec
    have htid : t.id ∈ order := by
      apply hkeys
      rw [graphKeys_build tasks hnd]
      exact List.mem_map_of_mem Task.id ht
    have hdeps : d ∈ depsOf (buildDependencyGraph tasks) t.id := by
      rw [depsOf_build tasks hnd t ht]
      exact hd
    exact ⟨order, rfl, (topo_indexOf_lt _ order hndo htopo t.id htid d hdeps).1⟩

/-- Witness for C4 (amended) at the one-task list referencing `Z`. -/
theorem unknownRef_included_in_order_witness :
    (([taskZref].map Task.id).Nodup
      ∧ (∀ x, ¬ Relation.TransGen (edge (buildDependencyGraph [taskZref])) x x)
      ∧ taskZref ∈ [taskZref]
      ∧ "Z" ∈ taskZref.dependencies
      ∧ "Z" ∉ [taskZref].map Task.id)
      ∧ ∃ order, calculateExecutionOrder (buildDependencyGraph [taskZref]) noConstraints
          = Except.ok order
        ∧ "Z" ∈ order := by
  have hac : ∀ x, ¬ Relation.TransGen (edge (buildDependencyGraph [taskZref])) x x := by
    apply acyclic_of_rank _ (fun s => if s = "A" then 1 else 0)
    intro x y hy
    have hg : buildDependencyGraph [taskZref] = [("A", ["Z"])] := rfl
    rw [hg, depsOf_cons] at hy
    by_cases hx : "A" = x
    · rw [if_pos hx] at hy
      simp only [List.mem_singleton] at hy
      subst hy
      subst hx
      decide
    · rw [if_neg hx] at hy
      simp [depsOf] at hy
  exact ⟨⟨by decide, hac, by decide, by decide, by decide⟩,
    unknownRef_included_in_order [taskZref] noConstraints (by decide) hac
      taskZref (by decide) "Z" (by decide) (by decide)⟩

end Planning
